import Mathlib

/-!
Shallow embedding of `src/eval/agreement.py`: an inter-annotator agreement
script.  Spreadsheet cells are modelled as a tagged variant
(empty / text / number); numeric cells are modelled as integers.  Python
dicts (which preserve insertion order) are modelled as association lists,
and code that can raise (`int(...)` on a non-coercible value) returns
`Except`.  The external pieces — openpyxl's file reading and sklearn's
`cohen_kappa_score` — are out of scope: a workbook is taken as an already
materialised list of sheets, and the report carries the sequences that are
fed to the kappa function rather than its value.
-/

/-- A spreadsheet cell value as seen through `values_only=True`:
`None`, a text, or a number (modelled as an integer). -/
inductive Cell where
  | empty : Cell
  | str (s : String) : Cell
  | num (n : Int) : Cell
deriving DecidableEq, Repr

/-- One data row of a sheet.  The script reads columns 0 (qid),
3 (pass indicator), 4 (fail indicator) and 5 (numeric annotator score);
`rest` stands for any further columns, which are never read. -/
structure Row where
  c0 : Cell
  c1 : Cell
  c2 : Cell
  c3 : Cell
  c4 : Cell
  c5 : Cell
  rest : List Cell
deriving DecidableEq, Repr

/-- A worksheet: its name and all its rows (row 0 is the header;
`iter_rows(min_row=2)` starts from the second row). -/
structure Sheet where
  name : String
  rows : List Row
deriving DecidableEq, Repr

/-- A workbook is its sheets in `wb.sheetnames` order. -/
abbrev Workbook := List Sheet

/-- `sheetname.startswith("Team")`. -/
def startsWithTeam (s : String) : Bool :=
  match s.data with
  | 'T' :: 'e' :: 'a' :: 'm' :: _ => true
  | _ => false

/-- Digits-only check for the body of an integer literal. -/
def isDigitList (l : List Char) : Bool :=
  !l.isEmpty && l.all Char.isDigit

/-- Value of a digit string. -/
def digitsVal (l : List Char) : Nat :=
  l.foldl (fun a c => a * 10 + (c.toNat - 48)) 0

/-- Strip leading and trailing whitespace from a character list. -/
def trimChars (l : List Char) : List Char :=
  ((l.dropWhile Char.isWhitespace).reverse.dropWhile Char.isWhitespace).reverse

/-- Python `int(s)` on a text `s`: optional sign and digits after stripping
whitespace; anything else raises (`none`). -/
def pyIntOfString (s : String) : Option Int :=
  match trimChars s.data with
  | '-' :: ds => if isDigitList ds then some (-(digitsVal ds : Int)) else none
  | '+' :: ds => if isDigitList ds then some ((digitsVal ds : Int)) else none
  | ds => if isDigitList ds then some ((digitsVal ds : Int)) else none

/-- Python `int(x)` on a cell value: the integer itself for a number, text
parsing for a text, and a raise (`none`) for `None` (that case is
unreachable in the script, which tests `score is None` first). -/
def pyIntOfCell : Cell → Option Int
  | Cell.num n => some n
  | Cell.str s => pyIntOfString s
  | Cell.empty => none

/-- The `score` local of `load_scores` after the if-chain: column 5 when
non-empty, else 1 on the pass marker, else 0 on the fail marker, else
`None` (not evaluated). -/
def resolveCell (row : Row) : Option Cell :=
  match row.c5 with
  | Cell.empty =>
      if row.c3 = Cell.str "Pass (1)" then some (Cell.num 1)
      else if row.c4 = Cell.str "Fail (0)" then some (Cell.num 0)
      else none
  | c => some c

/-- Python `d.get(k)` on an insertion-ordered association list. -/
def dictGet {α β : Type} [DecidableEq α] : List (α × β) → α → Option β
  | [], _ => none
  | (k, v) :: t, k' => if k' = k then some v else dictGet t k'

/-- Python `d[k] = v`: update in place when the key exists (keeping its
position), else append at the end. -/
def dictSet {α β : Type} [DecidableEq α] : List (α × β) → α → β → List (α × β)
  | [], k, v => [(k, v)]
  | (k', v') :: t, k, v =>
      if k = k' then (k, v) :: t else (k', v') :: dictSet t k v

/-- Scores of one team: qid ↦ score, in insertion order. -/
abbrev TeamScores := List (Cell × Int)

/-- Scores of one annotator: team name ↦ TeamScores. -/
abbrev AnnotatorScores := List (String × TeamScores)

/-- `all_scores.setdefault(sheetname, {})[qid] = v`. -/
def setdefaultSet : AnnotatorScores → String → Cell → Int → AnnotatorScores
  | [], team, qid, v => [(team, [(qid, v)])]
  | (t, ts) :: rest, team, qid, v =>
      if team = t then (t, dictSet ts qid v) :: rest
      else (t, ts) :: setdefaultSet rest team qid v

/-- One iteration of the row loop of `load_scores`: skip on empty qid,
resolve the score, raise (`Except.error`) when `int(score)` fails, else
store. -/
def processRow (sheetname : String) (acc : AnnotatorScores) (row : Row) :
    Except Unit AnnotatorScores :=
  if row.c0 = Cell.empty then .ok acc
  else
    match resolveCell row with
    | none => .ok acc
    | some c =>
        match pyIntOfCell c with
        | none => .error ()
        | some n => .ok (setdefaultSet acc sheetname row.c0 n)

/-- The row loop over one sheet's data rows. -/
def processRows (sheetname : String) (acc : AnnotatorScores) :
    List Row → Except Unit AnnotatorScores
  | [] => .ok acc
  | r :: rs =>
      match processRow sheetname acc r with
      | .error e => .error e
      | .ok acc2 => processRows sheetname acc2 rs

/-- The sheet loop of `load_scores`: only sheets whose name starts with
"Team" are scanned, skipping the header row. -/
def loadSheets (acc : AnnotatorScores) : List Sheet → Except Unit AnnotatorScores
  | [] => .ok acc
  | s :: ss =>
      if startsWithTeam s.name then
        match processRows s.name acc (s.rows.drop 1) with
        | .error e => .error e
        | .ok acc2 => loadSheets acc2 ss
      else loadSheets acc ss

/-- `load_scores`: build `{team: {qid: int(score)}}` from a workbook. -/
def load_scores (wb : Workbook) : Except Unit AnnotatorScores :=
  loadSheets [] wb

/-- Lexicographic order on character lists by code point, modelling
Python's string comparison (team names are unique keys, so the tuple
comparison in `sorted(scores_dict.items())` is decided by the name). -/
def strLeChars : List Char → List Char → Bool
  | [], _ => true
  | _ :: _, [] => false
  | a :: as, b :: bs => if a = b then strLeChars as bs else decide (a.toNat < b.toNat)

/-- Comparison of `(team, scores)` items by team name. -/
def itemLe (p q : String × TeamScores) : Bool :=
  strLeChars p.1.data q.1.data

/-- Insert into a name-sorted list of items. -/
def insertItem (x : String × TeamScores) : AnnotatorScores → AnnotatorScores
  | [] => [x]
  | y :: ys => if itemLe x y then x :: y :: ys else y :: insertItem x ys

/-- `sorted(scores_dict.items())`. -/
def sortItems : AnnotatorScores → AnnotatorScores
  | [] => []
  | x :: xs => insertItem x (sortItems xs)

/-- `scores_per_project`: for each team (in name order) the mean of its
scores and their count; a team without scores reports mean `0.0`.  Real
division is modelled exactly over `ℚ`. -/
def scores_per_project (scores_dict : AnnotatorScores) : List (String × ℚ × Nat) :=
  (sortItems scores_dict).map (fun p =>
    let vals := p.2.map Prod.snd
    (p.1, if vals = [] then (0 : ℚ) else ((vals.sum : Int) : ℚ) / (vals.length : ℚ),
      vals.length))

/-- `by_qid.setdefault(k, []).append(v)`: append to the group of `k`,
creating it at the end on first use. -/
def appendGroup {α β : Type} [DecidableEq α] :
    List (α × List β) → α → β → List (α × List β)
  | [], k, v => [(k, [v])]
  | (k', vs) :: t, k, v =>
      if k = k' then (k', vs ++ [v]) :: t else (k', vs) :: appendGroup t k v

/-- The grouping loop of `pct_score_one_per_category`. -/
def by_qid (scores_dict : AnnotatorScores) : List (Cell × List Int) :=
  scores_dict.foldl (fun acc p => p.2.foldl (fun a qv => appendGroup a qv.1 qv.2) acc) []

/-- `pct_score_one_per_category`: per qid, percentage of teams scoring 1
and the number of contributing teams. -/
def pct_score_one_per_category (scores_dict : AnnotatorScores) :
    List (Cell × ℚ × Nat) :=
  (by_qid scores_dict).map (fun p =>
    let vals := p.2
    (p.1, if vals = [] then (0 : ℚ)
      else (((vals.filter (fun s => s = 1)).sum : Int) : ℚ) / (vals.length : ℚ) * 100,
      vals.length))

/-- The `common` list of `main`: for each team of `m1` also present in
`m2`, for each of its qids also scored in `m2`, the pair `(s1, s2)`. -/
def pairedAll (m1 m2 : AnnotatorScores) : List (Int × Int) :=
  m1.flatMap (fun p =>
    match dictGet m2 p.1 with
    | none => []
    | some ts2 => p.2.filterMap (fun qv => (dictGet ts2 qv.1).map (fun s2 => (qv.2, s2))))

/-- The same traversal keeping the qid with each pair (the sequence of
`by_q.setdefault(qid, []).append(...)` events of `main`). -/
def pairedEvents (m1 m2 : AnnotatorScores) : List (Cell × (Int × Int)) :=
  m1.flatMap (fun p =>
    match dictGet m2 p.1 with
    | none => []
    | some ts2 =>
        p.2.filterMap (fun qv =>
          (dictGet ts2 qv.1).map (fun s2 => (qv.1, (qv.2, s2)))))

/-- The `by_q` dict of `main`: the paired scores grouped by qid,
groups in first-appearance order (sorting happens only when printing). -/
def pairedByQid (m1 m2 : AnnotatorScores) : List (Cell × List (Int × Int)) :=
  (pairedEvents m1 m2).foldl (fun acc e => appendGroup acc e.1 e.2) []

/-- `sum(m for _, m, _ in rows) / len(rows)` when `rows` is non-empty:
the cross-project mean printed by `main`. -/
def cross_project_mean (data : AnnotatorScores) : Option ℚ :=
  let rows := scores_per_project data
  if rows = [] then none
  else some ((rows.map (fun r => r.2.1)).sum / (rows.length : ℚ))

/-- `all_vals`: every recorded score of one annotator, flattened. -/
def flat_vals (data : AnnotatorScores) : List Int :=
  data.flatMap (fun p => p.2.map Prod.snd)

/-- The global flat mean of `main` (printed only when defined). -/
def total_mean (data : AnnotatorScores) : Option ℚ :=
  let all_vals := flat_vals data
  if all_vals = [] then none
  else some (((all_vals.sum : Int) : ℚ) / (all_vals.length : ℚ))

/-- `count_ones / total_n * 100` when any score is recorded: the aggregate
pass percentage printed by `main`. -/
def global_pct (data : AnnotatorScores) : Option ℚ :=
  let count_ones := ((flat_vals data).filter (fun s => s = 1)).sum
  let total_n := (data.map (fun p => p.2.length)).sum
  if total_n = 0 then none
  else some (((count_ones : Int) : ℚ) / (total_n : ℚ) * 100)

/-- Mean of a list of scores, used for the common-cell means of `main`. -/
def mean_of (l : List Int) : Option ℚ :=
  if l = [] then none else some (((l.sum : Int) : ℚ) / (l.length : ℚ))

/-- Everything `main` computes after the no-overlap check, in particular
the sequences handed to the external kappa function. -/
structure Report where
  pairs : List (Int × Int)
  byQid : List (Cell × List (Int × Int))
  perProject1 : List (String × ℚ × Nat)
  perProject2 : List (String × ℚ × Nat)
  crossMean1 : Option ℚ
  crossMean2 : Option ℚ
  flatMean1 : Option ℚ
  flatMean2 : Option ℚ
  commonMean1 : Option ℚ
  commonMean2 : Option ℚ
  pct1 : List (Cell × ℚ × Nat)
  pct2 : List (Cell × ℚ × Nat)
  globalPct1 : Option ℚ
  globalPct2 : Option ℚ
deriving Repr

/-- `main` on two already-loaded score dicts: on empty `common` it prints
the "Nessun punteggio in comune" message and returns at once (`none`);
otherwise it produces the full report. -/
def mainOn (m1 m2 : AnnotatorScores) : Option Report :=
  let common := pairedAll m1 m2
  if common = [] then none
  else some
    { pairs := common
      byQid := pairedByQid m1 m2
      perProject1 := scores_per_project m1
      perProject2 := scores_per_project m2
      crossMean1 := cross_project_mean m1
      crossMean2 := cross_project_mean m2
      flatMean1 := total_mean m1
      flatMean2 := total_mean m2
      commonMean1 := mean_of (common.map Prod.fst)
      commonMean2 := mean_of (common.map Prod.snd)
      pct1 := pct_score_one_per_category m1
      pct2 := pct_score_one_per_category m2
      globalPct1 := global_pct m1
      globalPct2 := global_pct m2 }

/-! ### Helper lemmas on the dictionary model -/

theorem dictGet_dictSet {α β : Type} [DecidableEq α] (l : List (α × β)) (k k' : α) (v : β) :
    dictGet (dictSet l k v) k' = if k' = k then some v else dictGet l k' := by
  induction l with
  | nil => by_cases h2 : k' = k <;> simp [dictGet, dictSet, h2]
  | cons hd t ih =>
      obtain ⟨a, b⟩ := hd
      by_cases hk : k = a
      · subst hk
        by_cases h2 : k' = k <;> simp [dictSet, dictGet, h2]
      · by_cases h2 : k' = a
        · subst h2
          have hne : ¬(k' = k) := fun h => hk h.symm
          simp [dictSet, hk, dictGet, hne]
        · simp [dictSet, hk, dictGet, h2, ih]

theorem dictSet_ne_nil {α β : Type} [DecidableEq α] (l : List (α × β)) (k : α) (v : β) :
    dictSet l k v ≠ [] := by
  cases l with
  | nil => simp [dictSet]
  | cons hd t =>
      obtain ⟨a, b⟩ := hd
      by_cases hk : k = a <;> simp [dictSet, hk]

theorem mem_dictSet {α β : Type} [DecidableEq α] (l : List (α × β)) (k : α) (v : β)
    (e : α × β) (he : e ∈ dictSet l k v) : e = (k, v) ∨ e ∈ l := by
  induction l with
  | nil => simpa [dictSet] using he
  | cons hd t ih =>
      obtain ⟨a, b⟩ := hd
      by_cases hk : k = a
      · subst hk
        rcases (by simpa [dictSet] using he : e = (k, v) ∨ e ∈ t) with h1 | h1
        · exact Or.inl h1
        · exact Or.inr (List.mem_cons_of_mem _ h1)
      · rcases (by simpa [dictSet, hk] using he : e = (a, b) ∨ e ∈ dictSet t k v) with h1 | h1
        · exact Or.inr (by simp [h1])
        · rcases ih h1 with h2 | h2
          · exact Or.inl h2
          · exact Or.inr (List.mem_cons_of_mem _ h2)

theorem keys_dictSet {α β : Type} [DecidableEq α] (l : List (α × β)) (k : α) (v : β) :
    (dictSet l k v).map Prod.fst =
      if (dictGet l k).isSome then l.map Prod.fst else l.map Prod.fst ++ [k] := by
  induction l with
  | nil => simp [dictGet, dictSet]
  | cons hd t ih =>
      obtain ⟨a, b⟩ := hd
      by_cases hk : k = a
      · subst hk
        simp [dictSet, dictGet]
      · have hne : ¬(k = a) := hk
        simp only [dictSet, if_neg hne, List.map_cons, dictGet, ih]
        split <;> simp

theorem not_mem_keys_of_dictGet_none {α β : Type} [DecidableEq α]
    (l : List (α × β)) (k : α) (h : dictGet l k = none) : k ∉ l.map Prod.fst := by
  induction l with
  | nil => simp
  | cons hd t ih =>
      obtain ⟨a, b⟩ := hd
      by_cases hk : k = a
      · subst hk
        simp [dictGet] at h
      · simp only [dictGet, if_neg hk] at h
        simp [hk, ih h]

theorem nodup_keys_dictSet {α β : Type} [DecidableEq α] (l : List (α × β)) (k : α) (v : β)
    (h : (l.map Prod.fst).Nodup) : ((dictSet l k v).map Prod.fst).Nodup := by
  rw [keys_dictSet]
  cases hg : dictGet l k with
  | some w => simpa [hg] using h
  | none =>
      have hk : k ∉ l.map Prod.fst := not_mem_keys_of_dictGet_none l k hg
      simpa [hg] using ((List.perm_append_singleton k (l.map Prod.fst)).nodup_iff).mpr
        (by simp [h, hk])

theorem mem_of_dictGet_some {α β : Type} [DecidableEq α] (l : List (α × β)) (k : α) (v : β)
    (h : dictGet l k = some v) : (k, v) ∈ l := by
  induction l with
  | nil => simp [dictGet] at h
  | cons hd t ih =>
      obtain ⟨a, b⟩ := hd
      by_cases hk : k = a
      · subst hk
        have hb : b = v := by simpa [dictGet] using h
        rw [← hb]
        exact List.mem_cons_self _ _
      · simp only [dictGet, if_neg hk] at h
        exact List.mem_cons_of_mem _ (ih h)

theorem countP_key_of_nodup {α β : Type} [DecidableEq α] (l : List (α × β)) (q : α)
    (h : (l.map Prod.fst).Nodup) :
    l.countP (fun e => decide (e.1 = q)) = if (dictGet l q).isSome then 1 else 0 := by
  induction l with
  | nil => simp [dictGet]
  | cons hd t ih =>
      obtain ⟨a, b⟩ := hd
      simp only [List.map_cons, List.nodup_cons] at h
      by_cases hq : q = a
      · subst hq
        have hz : t.countP (fun e => decide (e.1 = q)) = 0 := by
          refine List.countP_eq_zero.mpr (fun e he hp => ?_)
          have he1 : e.1 = q := of_decide_eq_true hp
          exact h.1 (he1 ▸ List.mem_map_of_mem Prod.fst he)
        simp [List.countP_cons, dictGet, hz]
      · have ha : (a = q) = False := eq_false (fun hh => hq hh.symm)
        simp [List.countP_cons, dictGet, if_neg hq, ih h.2, ha]

theorem dictGet_setdefaultSet (m : AnnotatorScores) (team : String) (qid : Cell)
    (v : Int) (t : String) :
    dictGet (setdefaultSet m team qid v) t =
      if t = team then some (dictSet ((dictGet m team).getD []) qid v)
      else dictGet m t := by
  induction m with
  | nil => by_cases ht : t = team <;> simp [setdefaultSet, dictGet, dictSet, ht]
  | cons hd rest ih =>
      obtain ⟨a, ts⟩ := hd
      by_cases hk : team = a
      · subst hk
        by_cases ht : t = team <;> simp [setdefaultSet, dictGet, ht]
      · have hne : ¬(team = a) := hk
        by_cases ht : t = a
        · subst ht
          have h2 : ¬(t = team) := fun h => hk h.symm
          simp [setdefaultSet, hne, dictGet, h2]
        · simp [setdefaultSet, hne, dictGet, ht, ih]

/-- Lookup of one annotator's score for a `(team, qid)` cell. -/
def teamQid (m : AnnotatorScores) (name : String) (q : Cell) : Option Int :=
  (dictGet m name).bind (fun ts => dictGet ts q)

theorem teamQid_setdefaultSet (m : AnnotatorScores) (name : String) (k : Cell)
    (n : Int) (q : Cell) :
    teamQid (setdefaultSet m name k n) name q =
      if q = k then some n else teamQid m name q := by
  unfold teamQid
  rw [dictGet_setdefaultSet, if_pos rfl, Option.some_bind, dictGet_dictSet]
  cases hg : dictGet m name with
  | none => by_cases hq : q = k <;> simp [hg, hq, dictGet]
  | some ts => by_cases hq : q = k <;> simp [hg, hq]

theorem teamQid_setdefaultSet_other (m : AnnotatorScores) (name t : String)
    (hk : t ≠ name) (k : Cell) (n : Int) (q : Cell) :
    teamQid (setdefaultSet m name k n) t q = teamQid m t q := by
  unfold teamQid
  rw [dictGet_setdefaultSet, if_neg hk]

theorem valsP_setdefaultSet (P : Int → Prop) (m : AnnotatorScores) (team : String)
    (qid : Cell) (v : Int) (h : ∀ p ∈ m, ∀ e ∈ p.2, P e.2) (hv : P v) :
    ∀ p ∈ setdefaultSet m team qid v, ∀ e ∈ p.2, P e.2 := by
  induction m with
  | nil =>
      intro p hp e he
      simp [setdefaultSet] at hp
      subst hp
      simp at he
      subst he
      exact hv
  | cons hd rest ih =>
      obtain ⟨t, ts⟩ := hd
      by_cases hk : team = t
      · subst hk
        intro p hp e he
        rcases (by simpa [setdefaultSet] using hp :
            p = (team, dictSet ts qid v) ∨ p ∈ rest) with h1 | h1
        · subst h1
          rcases mem_dictSet ts qid v e (by simpa using he) with h2 | h2
          · rw [h2]; exact hv
          · exact h (team, ts) (List.mem_cons_self _ _) e h2
        · exact h p (List.mem_cons_of_mem _ h1) e he
      · intro p hp e he
        rcases (by simpa [setdefaultSet, hk] using hp :
            p = (t, ts) ∨ p ∈ setdefaultSet rest team qid v) with h1 | h1
        · exact h p (by simp [h1]) e he
        · exact ih (fun p2 hp2 => h p2 (List.mem_cons_of_mem _ hp2)) p h1 e he

theorem valsNE_setdefaultSet (m : AnnotatorScores) (team : String) (qid : Cell)
    (v : Int) (h : ∀ p ∈ m, p.2 ≠ []) :
    ∀ p ∈ setdefaultSet m team qid v, p.2 ≠ [] := by
  induction m with
  | nil =>
      intro p hp
      simp [setdefaultSet] at hp
      subst hp
      simp
  | cons hd rest ih =>
      obtain ⟨t, ts⟩ := hd
      by_cases hk : team = t
      · subst hk
        intro p hp
        rcases (by simpa [setdefaultSet] using hp :
            p = (team, dictSet ts qid v) ∨ p ∈ rest) with h1 | h1
        · rw [h1]; exact dictSet_ne_nil ts qid v
        · exact h p (List.mem_cons_of_mem _ h1)
      · intro p hp
        rcases (by simpa [setdefaultSet, hk] using hp :
            p = (t, ts) ∨ p ∈ setdefaultSet rest team qid v) with h1 | h1
        · exact h p (by simp [h1])
        · exact ih (fun p2 hp2 => h p2 (List.mem_cons_of_mem _ hp2)) p h1

theorem keys_setdefaultSet (m : AnnotatorScores) (team : String) (qid : Cell) (v : Int) :
    (setdefaultSet m team qid v).map Prod.fst =
      if (dictGet m team).isSome then m.map Prod.fst else m.map Prod.fst ++ [team] := by
  induction m with
  | nil => simp [setdefaultSet, dictGet]
  | cons hd rest ih =>
      obtain ⟨t, ts⟩ := hd
      by_cases hk : team = t
      · subst hk
        simp [setdefaultSet, dictGet]
      · have hne : ¬(team = t) := hk
        simp only [setdefaultSet, if_neg hne, List.map_cons, dictGet, ih]
        split <;> simp

/-- Both dictionary levels have duplicate-free keys. -/
def KeysOK (m : AnnotatorScores) : Prop :=
  (m.map Prod.fst).Nodup ∧ ∀ p ∈ m, (p.2.map Prod.fst).Nodup

theorem inner_keys_setdefaultSet (m : AnnotatorScores) (team : String) (qid : Cell)
    (v : Int) (h : ∀ p ∈ m, (p.2.map Prod.fst).Nodup) :
    ∀ p ∈ setdefaultSet m team qid v, (p.2.map Prod.fst).Nodup := by
  induction m with
  | nil =>
      intro p hp
      simp [setdefaultSet] at hp
      subst hp
      simp
  | cons hd rest ih =>
      obtain ⟨t, ts⟩ := hd
      by_cases hk : team = t
      · subst hk
        intro p hp
        rcases (by simpa [setdefaultSet] using hp :
            p = (team, dictSet ts qid v) ∨ p ∈ rest) with h1 | h1
        · rw [h1]
          exact nodup_keys_dictSet ts qid v (h (team, ts) (List.mem_cons_self _ _))
        · exact h p (List.mem_cons_of_mem _ h1)
      · intro p hp
        rcases (by simpa [setdefaultSet, hk] using hp :
            p = (t, ts) ∨ p ∈ setdefaultSet rest team qid v) with h1 | h1
        · exact h p (by simp [h1])
        · exact ih (fun p2 hp2 => h p2 (List.mem_cons_of_mem _ hp2)) p h1

theorem keysOK_setdefaultSet (m : AnnotatorScores) (team : String) (qid : Cell)
    (v : Int) (h : KeysOK m) : KeysOK (setdefaultSet m team qid v) := by
  constructor
  · rw [keys_setdefaultSet]
    cases hg : dictGet m team with
    | some w => simpa [hg] using h.1
    | none =>
        have hk : team ∉ m.map Prod.fst := not_mem_keys_of_dictGet_none m team hg
        simpa [hg] using ((List.perm_append_singleton team (m.map Prod.fst)).nodup_iff).mpr
          (by simp [h.1, hk])
  · exact inner_keys_setdefaultSet m team qid v h.2

/-! ### Structural lemmas on the loader -/

theorem processRow_ok_elim (name : String) (acc : AnnotatorScores) (row : Row)
    (acc2 : AnnotatorScores) (h : processRow name acc row = .ok acc2) :
    acc2 = acc ∨ ∃ n, (resolveCell row).bind pyIntOfCell = some n ∧
      row.c0 ≠ Cell.empty ∧ acc2 = setdefaultSet acc name row.c0 n := by
  unfold processRow at h
  by_cases h0 : row.c0 = Cell.empty
  · rw [if_pos h0] at h
    exact Or.inl (Except.ok.inj h).symm
  · rw [if_neg h0] at h
    cases hr : resolveCell row with
    | none =>
        simp only [hr] at h
        exact Or.inl (Except.ok.inj h).symm
    | some c =>
        simp only [hr] at h
        cases hi : pyIntOfCell c with
        | none =>
            simp only [hi] at h
            exact Except.noConfusion h
        | some n =>
            simp only [hi] at h
            exact Or.inr ⟨n, by simp [hr, hi], h0, (Except.ok.inj h).symm⟩

theorem processRows_preserve_of (name : String) (P : AnnotatorScores → Prop)
    (C : Row → Prop)
    (hstep : ∀ acc row acc2, C row → processRow name acc row = .ok acc2 → P acc → P acc2) :
    ∀ rows acc m, (∀ r ∈ rows, C r) → processRows name acc rows = .ok m → P acc → P m := by
  intro rows
  induction rows with
  | nil =>
      intro acc m _ h hP
      exact (by injection h : acc = m) ▸ hP
  | cons r rs ih =>
      intro acc m hC h hP
      unfold processRows at h
      cases hr : processRow name acc r with
      | error e => rw [hr] at h; cases h
      | ok acc2 =>
          rw [hr] at h
          exact ih acc2 m (fun r2 hr2 => hC r2 (List.mem_cons_of_mem _ hr2))
            h (hstep acc r acc2 (hC r (List.mem_cons_self _ _)) hr hP)

theorem loadSheets_preserve_of (P : AnnotatorScores → Prop)
    (C : String → Row → Prop)
    (hstep : ∀ name acc row acc2, C name row → processRow name acc row = .ok acc2 →
      P acc → P acc2) :
    ∀ sheets acc m,
      (∀ s ∈ sheets, startsWithTeam s.name = true → ∀ r ∈ s.rows.drop 1, C s.name r) →
      loadSheets acc sheets = .ok m → P acc → P m := by
  intro sheets
  induction sheets with
  | nil =>
      intro acc m _ h hP
      exact (by injection h : acc = m) ▸ hP
  | cons s ss ih =>
      intro acc m hC h hP
      unfold loadSheets at h
      by_cases hs : startsWithTeam s.name = true
      · rw [if_pos hs] at h
        cases hr : processRows s.name acc (s.rows.drop 1) with
        | error e => rw [hr] at h; cases h
        | ok acc2 =>
            rw [hr] at h
            refine ih acc2 m (fun s2 hs2 => hC s2 (List.mem_cons_of_mem _ hs2)) h ?_
            exact processRows_preserve_of s.name P (C s.name)
              (fun a r a2 => hstep s.name a r a2) (s.rows.drop 1) acc acc2
              (hC s (List.mem_cons_self _ _) hs) hr hP
      · rw [if_neg hs] at h
        exact ih acc m (fun s2 hs2 => hC s2 (List.mem_cons_of_mem _ hs2)) h hP

theorem processRow_isOk (name : String) (acc : AnnotatorScores) (row : Row)
    (h : row.c0 ≠ Cell.empty → row.c5 = Cell.empty ∨ (pyIntOfCell row.c5).isSome = true) :
    ∃ acc2, processRow name acc row = .ok acc2 := by
  unfold processRow
  by_cases h0 : row.c0 = Cell.empty
  · exact ⟨acc, by rw [if_pos h0]⟩
  · rw [if_neg h0]
    rcases h h0 with h5 | h5
    · unfold resolveCell
      rw [h5]
      by_cases hp : row.c3 = Cell.str "Pass (1)"
      · exact ⟨setdefaultSet acc name row.c0 1, by simp [hp, pyIntOfCell]⟩
      · by_cases hf : row.c4 = Cell.str "Fail (0)"
        · exact ⟨setdefaultSet acc name row.c0 0, by simp [hp, hf, pyIntOfCell]⟩
        · exact ⟨acc, by simp [hp, hf]⟩
    · have hr : resolveCell row = some row.c5 := by
        unfold resolveCell
        cases hc : row.c5 with
        | empty => rw [hc] at h5; simp [pyIntOfCell] at h5
        | str s => rfl
        | num n => rfl
      cases hi : pyIntOfCell row.c5 with
      | none => rw [hi] at h5; simp at h5
      | some n => exact ⟨setdefaultSet acc name row.c0 n, by simp [hr, hi]⟩

theorem processRows_isOk (name : String) :
    ∀ rows : List Row,
      (∀ r ∈ rows, r.c0 ≠ Cell.empty → r.c5 = Cell.empty ∨ (pyIntOfCell r.c5).isSome = true) →
      ∀ acc, ∃ m, processRows name acc rows = .ok m := by
  intro rows
  induction rows with
  | nil => exact fun _ acc => ⟨acc, rfl⟩
  | cons r rs ih =>
      intro hC acc
      obtain ⟨acc2, h2⟩ := processRow_isOk name acc r (hC r (List.mem_cons_self _ _))
      obtain ⟨m, hm⟩ := ih (fun r2 hr2 => hC r2 (List.mem_cons_of_mem _ hr2)) acc2
      exact ⟨m, by unfold processRows; rw [h2]; exact hm⟩

theorem loadSheets_isOk :
    ∀ sheets : List Sheet,
      (∀ s ∈ sheets, startsWithTeam s.name = true → ∀ r ∈ s.rows.drop 1,
        r.c0 ≠ Cell.empty → r.c5 = Cell.empty ∨ (pyIntOfCell r.c5).isSome = true) →
      ∀ acc, ∃ m, loadSheets acc sheets = .ok m := by
  intro sheets
  induction sheets with
  | nil => exact fun _ acc => ⟨acc, rfl⟩
  | cons s ss ih =>
      intro hC acc
      by_cases hs : startsWithTeam s.name = true
      · obtain ⟨acc2, h2⟩ := processRows_isOk s.name (s.rows.drop 1)
          (hC s (List.mem_cons_self _ _) hs) acc
        obtain ⟨m, hm⟩ := ih (fun s2 hs2 => hC s2 (List.mem_cons_of_mem _ hs2)) acc2
        exact ⟨m, by unfold loadSheets; rw [if_pos hs, h2]; exact hm⟩
      · obtain ⟨m, hm⟩ := ih (fun s2 hs2 => hC s2 (List.mem_cons_of_mem _ hs2)) acc
        exact ⟨m, by unfold loadSheets; rw [if_neg hs]; exact hm⟩

/-! ### Last-row-wins machinery -/

/-- The `(qid, score)` contribution of one row, `none` when the row is
skipped (empty qid or not evaluated). -/
def rowEntry (row : Row) : Option (Cell × Int) :=
  if row.c0 = Cell.empty then none
  else ((resolveCell row).bind pyIntOfCell).map (fun n => (row.c0, n))

/-- The contribution of one row to qid `q`. -/
def matchEntry (row : Row) (q : Cell) : Option Int :=
  (rowEntry row).bind (fun e => if e.1 = q then some e.2 else none)

/-- The score of the last scored row for qid `q` in a run of rows. -/
def lastScore (rows : List Row) (q : Cell) : Option Int :=
  ((rows.filterMap rowEntry).reverse.find? (fun e => decide (e.1 = q))).map Prod.snd

theorem lastScore_nil (q : Cell) : lastScore [] q = none := rfl

theorem lastScore_cons (r : Row) (rs : List Row) (q : Cell) :
    lastScore (r :: rs) q = (lastScore rs q).or (matchEntry r q) := by
  unfold lastScore matchEntry
  rw [List.filterMap_cons]
  cases he : rowEntry r with
  | none => simp
  | some e =>
      simp only [List.reverse_cons, List.find?_append]
      by_cases hq : e.1 = q
      · cases hf : (List.filterMap rowEntry rs).reverse.find? (fun e => decide (e.1 = q)) with
        | none => simp [hf, hq]
        | some w => simp [hf, hq]
      · cases hf : (List.filterMap rowEntry rs).reverse.find? (fun e => decide (e.1 = q)) with
        | none => simp [hf, hq]
        | some w => simp [hf, hq]

theorem teamQid_processRow (name : String) (acc : AnnotatorScores) (row : Row)
    (acc2 : AnnotatorScores) (h : processRow name acc row = .ok acc2) (q : Cell) :
    teamQid acc2 name q = (matchEntry row q).or (teamQid acc name q) := by
  unfold processRow at h
  by_cases h0 : row.c0 = Cell.empty
  · rw [if_pos h0] at h
    rw [(Except.ok.inj h).symm]
    simp [matchEntry, rowEntry, h0]
  · rw [if_neg h0] at h
    cases hr : resolveCell row with
    | none =>
        simp only [hr] at h
        rw [(Except.ok.inj h).symm]
        simp [matchEntry, rowEntry, h0, hr]
    | some c =>
        simp only [hr] at h
        cases hi : pyIntOfCell c with
        | none =>
            simp only [hi] at h
            exact Except.noConfusion h
        | some n =>
            simp only [hi] at h
            rw [(Except.ok.inj h).symm, teamQid_setdefaultSet]
            have hme : matchEntry row q = if row.c0 = q then some n else none := by
              simp [matchEntry, rowEntry, h0, hr, hi]
            rw [hme]
            by_cases hq : q = row.c0
            · subst hq
              simp
            · have hq2 : ¬(row.c0 = q) := fun h2 => hq h2.symm
              simp [hq, hq2]

theorem processRows_teamQid (name : String) :
    ∀ (rows : List Row) (acc m : AnnotatorScores),
      processRows name acc rows = .ok m → ∀ q : Cell,
      teamQid m name q = (lastScore rows q).or (teamQid acc name q) := by
  intro rows
  induction rows with
  | nil =>
      intro acc m h q
      rw [(Except.ok.inj h), lastScore_nil, Option.none_or]
  | cons r rs ih =>
      intro acc m h q
      unfold processRows at h
      cases hr : processRow name acc r with
      | error e => rw [hr] at h; exact Except.noConfusion h
      | ok acc2 =>
          rw [hr] at h
          rw [ih acc2 m h q, teamQid_processRow name acc r acc2 hr q,
            lastScore_cons, Option.or_assoc]

/-! ### Sorting and pairing lemmas -/

theorem insertItem_perm (x : String × TeamScores) (l : AnnotatorScores) :
    (insertItem x l).Perm (x :: l) := by
  induction l with
  | nil => simp [insertItem]
  | cons y ys ih =>
      unfold insertItem
      by_cases hle : itemLe x y = true
      · rw [if_pos hle]
      · rw [if_neg hle]
        exact ((ih.cons y).trans (List.Perm.swap x y ys))

theorem sortItems_perm (l : AnnotatorScores) : (sortItems l).Perm l := by
  induction l with
  | nil => simp [sortItems]
  | cons x xs ih => exact (insertItem_perm x (sortItems xs)).trans (ih.cons x)

theorem pairedAll_eq_events (m1 m2 : AnnotatorScores) :
    pairedAll m1 m2 = (pairedEvents m1 m2).map Prod.snd := by
  unfold pairedAll pairedEvents
  induction m1 with
  | nil => simp
  | cons p t ih =>
      rw [List.flatMap_cons, List.flatMap_cons, List.map_append, ← ih]
      congr 1
      cases hg : dictGet m2 p.1 with
      | none => simp
      | some ts2 =>
          simp only [List.map_filterMap]
          refine congrArg (fun f => List.filterMap f p.2) (funext (fun qv => ?_))
          cases dictGet ts2 qv.1 <;> rfl

theorem sum_len_appendGroup {α β : Type} [DecidableEq α]
    (acc : List (α × List β)) (k : α) (v : β) :
    ((appendGroup acc k v).map (fun g => g.2.length)).sum =
      (acc.map (fun g => g.2.length)).sum + 1 := by
  induction acc with
  | nil => simp [appendGroup]
  | cons g t ih =>
      obtain ⟨k', vs⟩ := g
      by_cases hk : k = k'
      · simp [appendGroup, hk]
        omega
      · simp [appendGroup, hk, ih]
        omega

theorem count_appendGroup {α β : Type} [DecidableEq α] [BEq β]
    (acc : List (α × List β)) (k : α) (v : β) (p : β) :
    ((appendGroup acc k v).map (fun g => g.2.count p)).sum =
      (acc.map (fun g => g.2.count p)).sum + (if v == p then 1 else 0) := by
  induction acc with
  | nil => simp [appendGroup, List.count_cons]
  | cons g t ih =>
      obtain ⟨k', vs⟩ := g
      by_cases hk : k = k'
      · simp only [appendGroup, if_pos hk, List.map_cons, List.sum_cons,
          List.count_append, List.count_cons, List.count_nil]
        split <;> omega
      · simp [appendGroup, hk, ih]
        omega

theorem sum_len_groupFold {α β : Type} [DecidableEq α] (events : List (α × β)) :
    ∀ acc : List (α × List β),
      (((events.foldl (fun a e => appendGroup a e.1 e.2) acc).map
        (fun g => g.2.length)).sum) =
      (acc.map (fun g => g.2.length)).sum + events.length := by
  induction events with
  | nil => simp
  | cons e es ih =>
      intro acc
      rw [List.foldl_cons, ih (appendGroup acc e.1 e.2), sum_len_appendGroup,
        List.length_cons]
      omega

theorem count_groupFold {α β : Type} [DecidableEq α] [BEq β]
    (p : β) (events : List (α × β)) :
    ∀ acc : List (α × List β),
      (((events.foldl (fun a e => appendGroup a e.1 e.2) acc).map
        (fun g => g.2.count p)).sum) =
      (acc.map (fun g => g.2.count p)).sum + (events.map Prod.snd).count p := by
  induction events with
  | nil => simp
  | cons e es ih =>
      intro acc
      rw [List.foldl_cons, ih (appendGroup acc e.1 e.2), count_appendGroup,
        List.map_cons, List.count_cons]
      omega

/-! ### Concrete fixtures -/

/-- A header row (its contents are never read: `min_row=2` skips it). -/
def headerRow : Row :=
  ⟨Cell.str "ID", Cell.str "Desc", Cell.str "Notes", Cell.str "P", Cell.str "F",
    Cell.str "Score", []⟩

/-- A data row with the four meaningful columns. -/
def dataRow (q p f s : Cell) : Row :=
  ⟨q, Cell.empty, Cell.empty, p, f, s, []⟩

/-- A well-formed workbook: pass marker, fail marker, numeric score, a
blank row, an unevaluated row, and a non-team sheet that is skipped. -/
def wbMixed : Workbook :=
  [⟨"TeamA",
    [headerRow,
      dataRow (Cell.str "Q1") (Cell.str "Pass (1)") Cell.empty Cell.empty,
      dataRow (Cell.str "Q2") Cell.empty (Cell.str "Fail (0)") Cell.empty,
      dataRow (Cell.str "Q3") Cell.empty Cell.empty (Cell.num 1),
      dataRow Cell.empty (Cell.str "Pass (1)") Cell.empty Cell.empty,
      dataRow (Cell.str "Q4") (Cell.str "pass") (Cell.str "fail") Cell.empty]⟩,
   ⟨"Notes", [headerRow, dataRow (Cell.str "Q9") Cell.empty Cell.empty (Cell.str "zzz")]⟩]

/-- The `AnnotatorScores` that `load_scores` produces on `wbMixed`. -/
def mMixed : AnnotatorScores :=
  [("TeamA", [(Cell.str "Q1", 1), (Cell.str "Q2", 0), (Cell.str "Q3", 1)])]

/-- A workbook whose only data row has a numeric score cell holding text
that is not coercible to an integer. -/
def wbBadInt : Workbook :=
  [⟨"TeamA", [headerRow, dataRow (Cell.str "Q1") Cell.empty Cell.empty (Cell.str "abc")]⟩]

/-- A workbook whose only data row has numeric score `2`. -/
def wbOutOfRange : Workbook :=
  [⟨"TeamA", [headerRow, dataRow (Cell.str "Q1") Cell.empty Cell.empty (Cell.num 2)]⟩]

/-- A workbook whose scores all come from the indicator cells. -/
def wbIndicators : Workbook :=
  [⟨"TeamA",
    [headerRow,
      dataRow (Cell.str "Q1") (Cell.str "Pass (1)") Cell.empty Cell.empty,
      dataRow (Cell.str "Q2") Cell.empty (Cell.str "Fail (0)") Cell.empty]⟩]

/-- `load_scores wbIndicators`. -/
def mIndicators : AnnotatorScores :=
  [("TeamA", [(Cell.str "Q1", 1), (Cell.str "Q2", 0)])]

/-- Annotator scores with no team in common with `mRight`. -/
def mLeft : AnnotatorScores := [("TeamA", [(Cell.str "Q1", 1)])]

/-- Annotator scores with no team in common with `mLeft`. -/
def mRight : AnnotatorScores := [("TeamB", [(Cell.str "Q1", 1)])]

/-- Two teams, one with scores {1,1,0,1} (the spec's worked example). -/
def dFour : AnnotatorScores :=
  [("TeamB", [(Cell.str "Q1", 1)]),
   ("TeamA", [(Cell.str "Q1", 1), (Cell.str "Q2", 1), (Cell.str "Q3", 0), (Cell.str "Q4", 1)])]

/-- Two scored rows for the same qid: pass first, fail second. -/
def rowsDup : List Row :=
  [dataRow (Cell.str "Q1") (Cell.str "Pass (1)") Cell.empty Cell.empty,
   dataRow (Cell.str "Q1") Cell.empty (Cell.str "Fail (0)") Cell.empty]

/-! ### Claim theorems -/

/-- C1, counterexample: two annotators with non-empty scores but no
overlapping cell.  The claim says the no-overlap run still computes and
reports the descriptive aggregates; in the code `main` prints the message
and `return`s at once, so no part of the report is produced
(`mainOn … = none`), even though `scores_per_project` would have content. -/
theorem C1_counterexample :
    pairedAll mLeft mRight = [] ∧ mainOn mLeft mRight = none ∧
      scores_per_project mLeft ≠ [] :=
  ⟨rfl, rfl, by decide⟩

/-- C1, amended: when `pairedAll` is empty the program reports the
"no overlap" message and returns without raising, but it skips the whole
remaining report — the agreement section AND the descriptive aggregates
(per-project means, per-category percentages, global means) are all
skipped, not just the agreement section. -/
theorem C1_no_overlap_skips_report (m1 m2 : AnnotatorScores)
    (h : pairedAll m1 m2 = []) : mainOn m1 m2 = none := by
  simp [mainOn, h]

/-- Witness for C1 at the concrete no-overlap input. -/
theorem C1_witness : mainOn mLeft mRight = none :=
  C1_no_overlap_skips_report mLeft mRight (by decide)

/-- C2, counterexample: a row whose numeric score cell holds the text
"abc" makes `int(score)` raise `ValueError`, aborting loading — the
loader does not degrade this row to "not evaluated". -/
theorem C2_counterexample : load_scores wbBadInt = .error () := rfl

/-- C2, amended: the loader raises no error on any row whose non-empty
numeric score cell is coercible to an integer (or whose numeric cell is
empty, whatever the indicator cells hold); only a row with a non-empty
qid and a non-coercible non-empty numeric score cell aborts loading. -/
theorem C2_loader_ok_of_coercible (wb : Workbook)
    (h : ∀ s ∈ wb, startsWithTeam s.name = true → ∀ r ∈ s.rows.drop 1,
      r.c0 ≠ Cell.empty → r.c5 = Cell.empty ∨ (pyIntOfCell r.c5).isSome = true) :
    ∃ m, load_scores wb = .ok m :=
  loadSheets_isOk wb h []

/-- Witness for C2 on a workbook with markers, a numeric score, a blank
row, an unevaluated row and a skipped non-team sheet. -/
theorem C2_witness : ∃ m, load_scores wbMixed = .ok m :=
  C2_loader_ok_of_coercible wbMixed (by decide)

/-- C5: the per-qid grouping partitions the combined paired sample — the
group lengths of `pairedByQid` sum to the length of `pairedAll`, and each
pair value occurs in the groups, in total, exactly as often as in
`pairedAll` (so every element of `pairedAll` lands in exactly one group). -/
theorem C5_partition (m1 m2 : AnnotatorScores) :
    ((pairedByQid m1 m2).map (fun g => g.2.length)).sum = (pairedAll m1 m2).length
    ∧ ∀ p : Int × Int,
      ((pairedByQid m1 m2).map (fun g => g.2.count p)).sum = (pairedAll m1 m2).count p := by
  constructor
  · rw [pairedAll_eq_events, List.length_map]
    unfold pairedByQid
    have h := sum_len_groupFold (pairedEvents m1 m2) []
    simpa using h
  · intro p
    rw [pairedAll_eq_events]
    unfold pairedByQid
    have h := count_groupFold p (pairedEvents m1 m2) []
    simpa using h

/-- C3, counterexample: a numeric score cell holding `2` is stored as `2`
in the loader's output — the stored value is not restricted to {0, 1}. -/
theorem C3_counterexample :
    load_scores wbOutOfRange = .ok [("TeamA", [(Cell.str "Q1", 2)])] ∧
      ((2 : Int) ≠ 0 ∧ (2 : Int) ≠ 1) :=
  ⟨rfl, by decide⟩

/-- C3, amended: scores resolved through the indicator cells are always in
{0, 1}; only the dedicated numeric score cell can introduce other values
(it is stored coerced but unvalidated).  Hence on a workbook whose team
data rows all have an empty numeric cell, every stored value is 0 or 1. -/
theorem C3_indicator_scores_binary (wb : Workbook) (m : AnnotatorScores)
    (hc5 : ∀ s ∈ wb, startsWithTeam s.name = true → ∀ r ∈ s.rows.drop 1,
      r.c5 = Cell.empty)
    (h : load_scores wb = .ok m) :
    ∀ p ∈ m, ∀ e ∈ p.2, e.2 = 0 ∨ e.2 = 1 := by
  refine loadSheets_preserve_of
    (P := fun m => ∀ p ∈ m, ∀ e ∈ p.2, e.2 = 0 ∨ e.2 = 1)
    (C := fun _ r => r.c5 = Cell.empty) ?_ wb [] m hc5 h (by simp)
  intro name acc row acc2 hC hok hP
  rcases processRow_ok_elim name acc row acc2 hok with h1 | ⟨n, hn, _, h2⟩
  · rw [h1]; exact hP
  · have hr : resolveCell row = some (Cell.num 1) ∨ resolveCell row = some (Cell.num 0)
        ∨ resolveCell row = none := by
      unfold resolveCell
      rw [hC]
      by_cases hp : row.c3 = Cell.str "Pass (1)"
      · exact Or.inl (by simp [hp])
      · by_cases hf : row.c4 = Cell.str "Fail (0)"
        · exact Or.inr (Or.inl (by simp [hp, hf]))
        · exact Or.inr (Or.inr (by simp [hp, hf]))
    have hn01 : n = 0 ∨ n = 1 := by
      rcases hr with hr | hr | hr <;> rw [hr] at hn <;>
        simp [pyIntOfCell] at hn
      · omega
      · omega
    rw [h2]
    exact valsP_setdefaultSet (fun v => v = 0 ∨ v = 1) acc name row.c0 n hP hn01

/-- Witness for C3 on an indicator-only workbook, at the stored entry
("Q1", 1) of team "TeamA". -/
theorem C3_witness : (1 : Int) = 0 ∨ (1 : Int) = 1 :=
  C3_indicator_scores_binary wbIndicators mIndicators (by decide) rfl
    ("TeamA", [(Cell.str "Q1", 1), (Cell.str "Q2", 0)]) (by decide)
    (Cell.str "Q1", 1) (by decide)

/-- C4: the exact score-resolution order for a data row with non-empty
qid — a non-empty numeric cell (column 5) wins regardless of both
indicator cells; else the pass marker in column 3 gives 1 regardless of
column 4; else the fail marker in column 4 gives 0; else the row
contributes nothing (no default). -/
theorem C4_resolution_order (name : String) (acc : AnnotatorScores)
    (c0 c1 c2 c3 c4 c5 : Cell) (rest : List Cell) (h0 : c0 ≠ Cell.empty) :
    (∀ n : Int, c5 ≠ Cell.empty → pyIntOfCell c5 = some n →
      processRow name acc ⟨c0, c1, c2, c3, c4, c5, rest⟩ =
        .ok (setdefaultSet acc name c0 n))
    ∧ (c5 = Cell.empty → c3 = Cell.str "Pass (1)" →
      processRow name acc ⟨c0, c1, c2, c3, c4, c5, rest⟩ =
        .ok (setdefaultSet acc name c0 1))
    ∧ (c5 = Cell.empty → c3 ≠ Cell.str "Pass (1)" → c4 = Cell.str "Fail (0)" →
      processRow name acc ⟨c0, c1, c2, c3, c4, c5, rest⟩ =
        .ok (setdefaultSet acc name c0 0))
    ∧ (c5 = Cell.empty → c3 ≠ Cell.str "Pass (1)" → c4 ≠ Cell.str "Fail (0)" →
      processRow name acc ⟨c0, c1, c2, c3, c4, c5, rest⟩ = .ok acc) := by
  refine ⟨?_, ?_, ?_, ?_⟩
  · intro n h5 hn
    have hr : resolveCell ⟨c0, c1, c2, c3, c4, c5, rest⟩ = some c5 := by
      unfold resolveCell
      cases c5 with
      | empty => exact absurd rfl h5
      | str s => rfl
      | num k => rfl
    simp [processRow, h0, hr, hn]
  · intro h5 hp
    have hr : resolveCell ⟨c0, c1, c2, c3, c4, c5, rest⟩ = some (Cell.num 1) := by
      simp [resolveCell, h5, hp]
    simp [processRow, h0, hr, pyIntOfCell]
  · intro h5 hp hf
    have hr : resolveCell ⟨c0, c1, c2, c3, c4, c5, rest⟩ = some (Cell.num 0) := by
      simp [resolveCell, h5, hp, hf]
    simp [processRow, h0, hr, pyIntOfCell]
  · intro h5 hp hf
    have hr : resolveCell ⟨c0, c1, c2, c3, c4, c5, rest⟩ = none := by
      simp [resolveCell, h5, hp, hf]
    simp [processRow, h0, hr]

/-- Witness for C4: the numeric cell 7 overrides both markers. -/
theorem C4_witness :
    processRow "TeamA" [] ⟨Cell.str "Q1", Cell.empty, Cell.empty,
      Cell.str "Pass (1)", Cell.str "Fail (0)", Cell.num 7, []⟩ =
      .ok [("TeamA", [(Cell.str "Q1", 7)])] := by
  have h := (C4_resolution_order "TeamA" [] (Cell.str "Q1") Cell.empty Cell.empty
    (Cell.str "Pass (1)") (Cell.str "Fail (0)") (Cell.num 7) [] (by decide)).1
    7 (by decide) (by decide)
  exact h

/-- Helper for C7: rows with an empty first cell can be dropped without
changing the result of the row loop. -/
theorem processRows_filter_empty (name : String) :
    ∀ (rows : List Row) (acc : AnnotatorScores),
      processRows name acc rows =
        processRows name acc (rows.filter (fun r => decide (r.c0 ≠ Cell.empty))) := by
  intro rows
  induction rows with
  | nil => intro acc; rfl
  | cons r rs ih =>
      intro acc
      by_cases h0 : r.c0 = Cell.empty
      · have hstep : processRow name acc r = .ok acc := by simp [processRow, h0]
        have hdrop : (r :: rs).filter (fun r => decide (r.c0 ≠ Cell.empty)) =
            rs.filter (fun r => decide (r.c0 ≠ Cell.empty)) := by
          simp [List.filter_cons, h0]
        rw [hdrop]
        simp only [processRows, hstep]
        exact ih acc
      · have hkeep : (r :: rs).filter (fun r => decide (r.c0 ≠ Cell.empty)) =
            r :: rs.filter (fun r => decide (r.c0 ≠ Cell.empty)) := by
          simp [List.filter_cons, h0]
        rw [hkeep]
        simp only [processRows]
        cases hpr : processRow name acc r with
        | error e => simp only [hpr]
        | ok acc2 =>
            simp only [hpr]
            exact ih acc2

/-- C7: a data row whose qid cell is empty contributes nothing, whatever
every other column holds — pointwise, and as a filter over a whole run. -/
theorem C7_empty_qid_row_ignored :
    (∀ (name : String) (acc : AnnotatorScores) (c1 c2 c3 c4 c5 : Cell)
      (rest : List Cell),
      processRow name acc ⟨Cell.empty, c1, c2, c3, c4, c5, rest⟩ = .ok acc)
    ∧ ∀ (name : String) (rows : List Row) (acc : AnnotatorScores),
      processRows name acc rows =
        processRows name acc (rows.filter (fun r => decide (r.c0 ≠ Cell.empty))) :=
  ⟨fun name acc c1 c2 c3 c4 c5 rest => by simp [processRow],
   fun name rows acc => processRows_filter_empty name rows acc⟩

/-- C10: every team in a loader output has at least one score (a team
entry is created only when a first score is stored), so the zero-score
branch of the per-project mean is unreachable on loader outputs: every
reported per-project count is positive. -/
theorem C10_loader_teams_nonempty (wb : Workbook) (m : AnnotatorScores)
    (h : load_scores wb = .ok m) :
    (∀ p ∈ m, p.2 ≠ []) ∧ ∀ r ∈ scores_per_project m, 0 < r.2.2 := by
  have h1 : ∀ p ∈ m, p.2 ≠ [] := by
    refine loadSheets_preserve_of (P := fun m => ∀ p ∈ m, p.2 ≠ [])
      (C := fun _ _ => True) ?_ wb [] m (by simp) h (by simp)
    intro name acc row acc2 _ hok hP
    rcases processRow_ok_elim name acc row acc2 hok with h1 | ⟨n, _, _, h2⟩
    · rw [h1]; exact hP
    · rw [h2]; exact valsNE_setdefaultSet acc name row.c0 n hP
  refine ⟨h1, ?_⟩
  intro r hr
  unfold scores_per_project at hr
  obtain ⟨p, hp, hfp⟩ := List.mem_map.mp hr
  have hpm : p ∈ m := (sortItems_perm m).mem_iff.mp hp
  have hne := h1 p hpm
  rw [← hfp]
  simpa using List.length_pos.mpr hne

/-- Witness for C10 on the loaded mixed workbook, at its team "TeamA". -/
theorem C10_witness :
    [(Cell.str "Q1", (1 : Int)), (Cell.str "Q2", 0), (Cell.str "Q3", 1)] ≠ [] :=
  (C10_loader_teams_nonempty wbMixed mMixed rfl).1
    ("TeamA", [(Cell.str "Q1", 1), (Cell.str "Q2", 0), (Cell.str "Q3", 1)]) (by decide)

/-- C6: last-row-wins — after a sheet's row loop, the team's mapping has
duplicate-free qids, looks up each qid to the score of the *last* scored
row for that qid, and holds exactly one entry for any qid that was scored
at least once. -/
theorem C6_last_row_wins (name : String) (rows : List Row) (m : AnnotatorScores)
    (ts : TeamScores) (q : Cell) (h : processRows name [] rows = .ok m)
    (hts : dictGet m name = some ts) :
    (ts.map Prod.fst).Nodup
    ∧ dictGet ts q = lastScore rows q
    ∧ ts.countP (fun e => decide (e.1 = q)) =
        if (lastScore rows q).isSome then 1 else 0 := by
  have hK : KeysOK m := by
    refine processRows_preserve_of name KeysOK (fun _ => True) ?_ rows [] m
      (by simp) h ⟨by simp, by simp⟩
    intro acc row acc2 _ hok hP
    rcases processRow_ok_elim name acc row acc2 hok with h1 | ⟨n, _, _, h2⟩
    · rw [h1]; exact hP
    · rw [h2]; exact keysOK_setdefaultSet acc name row.c0 n hP
  have hnd : (ts.map Prod.fst).Nodup := hK.2 (name, ts) (mem_of_dictGet_some m name ts hts)
  have hq : dictGet ts q = lastScore rows q := by
    have hT := processRows_teamQid name rows [] m h q
    unfold teamQid at hT
    rw [hts] at hT
    simpa [dictGet] using hT
  exact ⟨hnd, hq, by rw [countP_key_of_nodup ts q hnd, hq]⟩

/-- Witness for C6: two scored rows for qid "Q1" (pass, then fail); the
mapping holds the single entry ("Q1", 0) from the later row. -/
theorem C6_witness :
    (([(Cell.str "Q1", (0 : Int))].map Prod.fst).Nodup
    ∧ dictGet [(Cell.str "Q1", (0 : Int))] (Cell.str "Q1") =
        lastScore rowsDup (Cell.str "Q1")
    ∧ [(Cell.str "Q1", (0 : Int))].countP (fun e => decide (e.1 = Cell.str "Q1")) =
        if (lastScore rowsDup (Cell.str "Q1")).isSome then 1 else 0) :=
  C6_last_row_wins "TeamA" rowsDup [("TeamA", [(Cell.str "Q1", 0)])]
    [(Cell.str "Q1", 0)] (Cell.str "Q1") rfl rfl

/-- C8: `scores_per_project` reports, for every team of the input, the
exact arithmetic mean of that team's recorded scores together with their
count, and the `0.0` fallback for a team with no recorded scores. -/
theorem C8_per_project_mean (d : AnnotatorScores) (team : String) (ts : TeamScores)
    (h : (team, ts) ∈ d) :
    (team,
      (if ts = [] then (0 : ℚ)
        else (((ts.map Prod.snd).sum : Int) : ℚ) / (ts.length : ℚ)),
      ts.length) ∈ scores_per_project d := by
  have hmem : (team, ts) ∈ sortItems d := (sortItems_perm d).mem_iff.mpr h
  unfold scores_per_project
  refine List.mem_map.mpr ⟨(team, ts), hmem, ?_⟩
  simp [List.map_eq_nil_iff]

/-- Witness for C8: team "TeamA" with scores {1,1,0,1} reports mean 3/4
(= 0.75) with count 4. -/
theorem C8_witness : ("TeamA", (3/4 : ℚ), 4) ∈ scores_per_project dFour := by
  have h := C8_per_project_mean dFour "TeamA"
    [(Cell.str "Q1", 1), (Cell.str "Q2", 1), (Cell.str "Q3", 0), (Cell.str "Q4", 1)]
    (by decide)
  simpa using h

theorem sum_flatMap {α β : Type} [AddCommMonoid β] (l : List α) (f : α → List β) :
    (l.flatMap f).sum = (l.map (fun x => (f x).sum)).sum := by
  induction l with
  | nil => simp
  | cons x xs ih => simp [List.flatMap_cons, List.sum_append, ih]

theorem intCast_listSum (l : List Int) :
    ((l.sum : Int) : ℚ) = (l.map (fun n => ((n : Int) : ℚ))).sum := by
  induction l with
  | nil => simp
  | cons x xs ih => simp [List.sum_cons, ih]

theorem natCast_listSum (l : List Nat) :
    ((l.sum : Nat) : ℚ) = (l.map (fun n => ((n : Nat) : ℚ))).sum := by
  induction l with
  | nil => simp
  | cons x xs ih => simp [List.sum_cons, ih]

/-- C9: the reported cross-project mean is the unweighted mean of the
per-project means (denominator: number of teams), while the global flat
mean is their category-count-weighted mean (numerator: Σ count·mean,
denominator: Σ count) — two different statistics, computed separately. -/
theorem C9_cross_vs_flat (d : AnnotatorScores) (hne : d ≠ [])
    (hvals : ∀ p ∈ d, p.2 ≠ []) :
    cross_project_mean d =
      some ((((scores_per_project d).map (fun r => r.2.1)).sum) / (d.length : ℚ))
    ∧ total_mean d =
      some ((((scores_per_project d).map (fun r => (r.2.2 : ℚ) * r.2.1)).sum)
        / (((scores_per_project d).map (fun r => (r.2.2 : ℚ))).sum)) := by
  have hlen : (scores_per_project d).length = d.length := by
    unfold scores_per_project
    rw [List.length_map, (sortItems_perm d).length_eq]
  have hvals2 : ∀ p ∈ sortItems d, p.2 ≠ [] :=
    fun p hp => hvals p ((sortItems_perm d).mem_iff.mp hp)
  -- the weighted summands reduce to the raw per-team sums
  have hA : (scores_per_project d).map (fun r => (r.2.2 : ℚ) * r.2.1) =
      (sortItems d).map (fun p => (((p.2.map Prod.snd).sum : Int) : ℚ)) := by
    unfold scores_per_project
    rw [List.map_map]
    refine List.map_congr_left (fun p hp => ?_)
    have hne2 : p.2.map Prod.snd ≠ [] := by
      rw [Ne, List.map_eq_nil_iff]
      exact hvals2 p hp
    have hlen0 : ((p.2.map Prod.snd).length : ℚ) ≠ 0 :=
      Nat.cast_ne_zero.mpr (fun h0 => hne2 (List.length_eq_zero.mp h0))
    simp only [Function.comp]
    rw [if_neg hne2]
    exact mul_div_cancel₀ _ hlen0
  have hB : (scores_per_project d).map (fun r => (r.2.2 : ℚ)) =
      (sortItems d).map (fun p => (((p.2.map Prod.snd).length : Nat) : ℚ)) := by
    unfold scores_per_project
    rw [List.map_map]
    rfl
  have hflat_ne : flat_vals d ≠ [] := by
    obtain ⟨p, hp⟩ := List.exists_mem_of_ne_nil d hne
    intro hcon
    have := List.flatMap_eq_nil_iff.mp hcon p hp
    exact hvals p hp (List.map_eq_nil_iff.mp this)
  have hsum : ((flat_vals d).sum : ℚ) =
      ((sortItems d).map (fun p => (((p.2.map Prod.snd).sum : Int) : ℚ))).sum := by
    unfold flat_vals
    rw [sum_flatMap, intCast_listSum, List.map_map]
    exact (((sortItems_perm d).map (fun p => (((p.2.map Prod.snd).sum : Int) : ℚ))).sum_eq).symm
  have hcnt : ((flat_vals d).length : ℚ) =
      ((sortItems d).map (fun p => (((p.2.map Prod.snd).length : Nat) : ℚ))).sum := by
    unfold flat_vals
    rw [List.length_flatMap, natCast_listSum, List.map_map]
    exact (((sortItems_perm d).map
      (fun p => (((p.2.map Prod.snd).length : Nat) : ℚ))).sum_eq).symm
  constructor
  · have hrows : scores_per_project d ≠ [] := by
      intro hcon
      have h0 : (scores_per_project d).length = 0 := by rw [hcon]; rfl
      rw [hlen] at h0
      exact hne (List.length_eq_zero.mp h0)
    unfold cross_project_mean
    rw [if_neg hrows, hlen]
  · unfold total_mean
    rw [if_neg hflat_ne, hA, hB, hsum, hcnt]

/-- Witness for C9 at a two-team input with unequal category counts. -/
theorem C9_witness :
    cross_project_mean dFour =
      some ((((scores_per_project dFour).map (fun r => r.2.1)).sum) / (dFour.length : ℚ))
    ∧ total_mean dFour =
      some ((((scores_per_project dFour).map (fun r => (r.2.2 : ℚ) * r.2.1)).sum)
        / (((scores_per_project dFour).map (fun r => (r.2.2 : ℚ))).sum)) :=
  C9_cross_vs_flat dFour (by decide) (by decide)
